import Mathlib

/-!
Shallow embedding of the saga orchestration core of the repository
(SagaContext, SagaStep, Saga, SagaOrchestrator).

Modelling conventions:
- JavaScript exceptions become `Except String`: a thrown error is `.error msg`,
  a normal return is `.ok v`.
- Opaque JavaScript values (step results, context values) are modelled as `String`.
- The mutable JavaScript objects become immutable records threaded explicitly;
  each operation returns the updated record(s).
- Wall-clock values (timestamps, sagaId, durations measured with Date.now) are
  nondeterministic in the source; timestamps and ids are omitted from the model,
  and the duration recorded by the orchestrator is passed in as an explicit
  argument in place of the Date.now subtraction.
- Step actions receive the whole context and may fail; per the documented
  contract (spec section 3: get/set on the key/value mapping is the only channel
  through which steps communicate, and every action in the repository only calls
  context.get/context.set) an action returns the new data mapping plus its
  result, and a compensation returns the new data mapping.
- Console logging is not state; instead the run produces a trace of `Event`
  values recording every invocation of a user-supplied forward action or
  compensation function (plus the skipped-compensation visit), which is the
  observable the claims speak about.
- `SagaContext.statusHistory` is a ghost audit field: it records every value
  ever assigned to the `status` field (the constructor writes PENDING, and each
  status mutator appends the value it assigns). The source field `status` is
  always the last element of this history.
-/

namespace SagaPattern

/-- Status values of a saga context (SagaContext.js, comment on the status
field: PENDING, IN_PROGRESS, COMPLETED, FAILED, COMPENSATING, COMPENSATED). -/
inductive SagaStatus where
  | PENDING
  | IN_PROGRESS
  | COMPLETED
  | FAILED
  | COMPENSATING
  | COMPENSATED
deriving DecidableEq, Repr

/-- SagaContext (SagaContext.js): data mapping, append-only executed-step log,
status, captured error, plus the ghost statusHistory audit field. -/
structure SagaContext where
  data : List (String × String)
  executedSteps : List (String × String)
  status : SagaStatus
  error : Option String
  statusHistory : List SagaStatus
deriving DecidableEq, Repr

/-- SagaContext constructor: copies the initial data, empty log, status
PENDING, no error. -/
def SagaContext.new (initialData : List (String × String)) : SagaContext :=
  { data := initialData
    executedSteps := []
    status := SagaStatus.PENDING
    error := none
    statusHistory := [SagaStatus.PENDING] }

/-- SagaContext.setStatus: unguarded assignment of the status field
(SagaContext.js lines 84-86); the ghost history records the assignment. -/
def SagaContext.setStatus (c : SagaContext) (s : SagaStatus) : SagaContext :=
  { c with status := s, statusHistory := c.statusHistory ++ [s] }

/-- SagaContext.markStepExecuted: push a log entry for a successfully executed
step (timestamp omitted). -/
def SagaContext.markStepExecuted (c : SagaContext) (stepName result : String) :
    SagaContext :=
  { c with executedSteps := c.executedSteps ++ [(stepName, result)] }

/-- SagaContext.setError. -/
def SagaContext.setError (c : SagaContext) (e : String) : SagaContext :=
  { c with error := some e }

/-- SagaContext.markStarted: status becomes IN_PROGRESS (startTime omitted). -/
def SagaContext.markStarted (c : SagaContext) : SagaContext :=
  c.setStatus SagaStatus.IN_PROGRESS

/-- SagaContext.markCompleted: status becomes COMPLETED (endTime omitted). -/
def SagaContext.markCompleted (c : SagaContext) : SagaContext :=
  c.setStatus SagaStatus.COMPLETED

/-- SagaContext.markFailed: status becomes FAILED and the error is stored. -/
def SagaContext.markFailed (c : SagaContext) (e : String) : SagaContext :=
  (c.setStatus SagaStatus.FAILED).setError e

/-- SagaContext.markCompensating: status becomes COMPENSATING. -/
def SagaContext.markCompensating (c : SagaContext) : SagaContext :=
  c.setStatus SagaStatus.COMPENSATING

/-- SagaContext.markCompensated: status becomes COMPENSATED (endTime omitted). -/
def SagaContext.markCompensated (c : SagaContext) : SagaContext :=
  c.setStatus SagaStatus.COMPENSATED

/-- Observable events of one saga run: each invocation of a user-supplied
forward action, each invocation of a user-supplied compensation function, and
the visit of an executed step that has no compensation function (the source
logs this visit as a skip). -/
inductive Event where
  | act (name : String)
  | comp (name : String)
  | compSkip (name : String)
deriving DecidableEq, Repr

/-- A forward action: reads the context, and either fails or returns the new
data mapping together with its result value. -/
abbrev Action := SagaContext → Except String (List (String × String) × String)

/-- A compensation: reads the context, and either fails or returns the new
data mapping. -/
abbrev Compensation := SagaContext → Except String (List (String × String))

/-- SagaStep (SagaStep.js constructor): name, forward action, optional
compensation, executed and compensated flags, captured result and error. -/
structure SagaStep where
  name : String
  action : Action
  compensation : Option Compensation
  executed : Bool
  compensated : Bool
  result : Option String
  error : Option String

/-- SagaStep constructor: flags false, result and error null. -/
def SagaStep.new (name : String) (action : Action)
    (compensation : Option Compensation) : SagaStep :=
  { name := name
    action := action
    compensation := compensation
    executed := false
    compensated := false
    result := none
    error := none }

/-- SagaStep.isExecuted. -/
def SagaStep.isExecuted (s : SagaStep) : Bool :=
  s.executed

/-- SagaStep.reset: clears both flags, result and error. -/
def SagaStep.reset (s : SagaStep) : SagaStep :=
  { s with executed := false, compensated := false, result := none, error := none }

/-- Result of SagaStep.execute: the updated step, the updated context, the
events emitted, and the JavaScript return-or-throw outcome. -/
structure StepExecResult where
  step : SagaStep
  ctx : SagaContext
  trace : List Event
  outcome : Except String String

/-- SagaStep.execute (SagaStep.js lines 294-312): invoke the action; on
success store the result, set executed, push a context log entry and return
the result; on failure store the error on the step (executed stays unchanged,
the context is untouched) and rethrow. -/
def SagaStep.execute (s : SagaStep) (ctx : SagaContext) : StepExecResult :=
  match s.action ctx with
  | Except.ok (d, r) =>
    { step := { s with result := some r, executed := true }
      ctx := ({ ctx with data := d }).markStepExecuted s.name r
      trace := [Event.act s.name]
      outcome := Except.ok r }
  | Except.error e =>
    { step := { s with error := some e }
      ctx := ctx
      trace := [Event.act s.name]
      outcome := Except.error e }

/-- Result of SagaStep.compensate. -/
structure StepCompResult where
  step : SagaStep
  ctx : SagaContext
  trace : List Event
  outcome : Except String Unit

/-- SagaStep.compensate (SagaStep.js lines 319-343): skip when not executed;
skip (with a visit event) when no compensation is defined; otherwise invoke
the compensation, on success set compensated, on failure rethrow. Note: the
catch block of the source only logs and rethrows, it does not write the error
field of the step, so the step is returned unchanged on failure. -/
def SagaStep.compensate (s : SagaStep) (ctx : SagaContext) : StepCompResult :=
  if s.executed = false then
    { step := s, ctx := ctx, trace := [], outcome := Except.ok () }
  else
    match s.compensation with
    | none =>
      { step := s, ctx := ctx, trace := [Event.compSkip s.name]
        outcome := Except.ok () }
    | some f =>
      match f ctx with
      | Except.ok d =>
        { step := { s with compensated := true }
          ctx := { ctx with data := d }
          trace := [Event.comp s.name]
          outcome := Except.ok () }
      | Except.error e =>
        { step := s, ctx := ctx, trace := [Event.comp s.name]
          outcome := Except.error e }

/-- Saga (Saga.js constructor): a name and an ordered list of steps. -/
structure Saga where
  name : String
  steps : List SagaStep

/-- Saga.addStep: append a freshly constructed step. -/
def Saga.addStep (sg : Saga) (name : String) (action : Action)
    (compensation : Option Compensation) : Saga :=
  { sg with steps := sg.steps ++ [SagaStep.new name action compensation] }

/-- Result of the forward pass of Saga.execute. -/
structure ExecLoopResult where
  steps : List SagaStep
  ctx : SagaContext
  trace : List Event
  outcome : Except String Unit

/-- The forward for-loop of Saga.execute (Saga.js lines 41-43): run the steps
in order, stopping at the first step whose execute throws. -/
def execLoop : List SagaStep → SagaContext → ExecLoopResult
  | [], ctx =>
    { steps := [], ctx := ctx, trace := [], outcome := Except.ok () }
  | s :: rest, ctx =>
    let r := SagaStep.execute s ctx
    match r.outcome with
    | Except.error e =>
      { steps := r.step :: rest, ctx := r.ctx, trace := r.trace
        outcome := Except.error e }
    | Except.ok _ =>
      let r2 := execLoop rest r.ctx
      { steps := r.step :: r2.steps, ctx := r2.ctx
        trace := r.trace ++ r2.trace, outcome := r2.outcome }

/-- Result of a compensation pass. -/
structure CompRunResult where
  steps : List SagaStep
  ctx : SagaContext
  trace : List Event

/-- The rollback loop of Saga.compensate (Saga.js lines 77-87): the source
filters the steps whose executed flag is true, reverses that list, and calls
compensate on each, absorbing any compensation error and continuing. This
recursion renders the same walk structurally: the steps after the head are
compensated first (reverse order), the head is compensated only when its
executed flag is true (the filter), and a throwing compensate is absorbed
(the outcome is discarded). -/
def compensateRun : List SagaStep → SagaContext → CompRunResult
  | [], ctx => { steps := [], ctx := ctx, trace := [] }
  | s :: rest, ctx =>
    let r := compensateRun rest ctx
    if s.isExecuted then
      let rc := s.compensate r.ctx
      { steps := rc.step :: r.steps, ctx := rc.ctx, trace := r.trace ++ rc.trace }
    else
      { steps := s :: r.steps, ctx := r.ctx, trace := r.trace }

/-- Saga.compensate (Saga.js lines 70-93): markCompensating, run the reverse
walk over the executed steps, markCompensated. -/
def Saga.compensate (sg : Saga) (ctx : SagaContext) : CompRunResult :=
  let r := compensateRun sg.steps ctx.markCompensating
  { steps := r.steps, ctx := r.ctx.markCompensated, trace := r.trace }

/-- Result of Saga.execute: updated steps (the source mutates the step
objects in place), the context returned to the caller, and the event trace. -/
structure SagaRunResult where
  steps : List SagaStep
  ctx : SagaContext
  trace : List Event

/-- Saga.execute (Saga.js lines 32-63): create a context, markStarted, run the
steps in order; on success markCompleted; on the first failure markFailed and
run the compensation pass. The context is returned in both cases. -/
def Saga.execute (sg : Saga) (initialData : List (String × String)) :
    SagaRunResult :=
  let ctx0 := (SagaContext.new initialData).markStarted
  let r := execLoop sg.steps ctx0
  match r.outcome with
  | Except.ok _ =>
    { steps := r.steps, ctx := r.ctx.markCompleted, trace := r.trace }
  | Except.error e =>
    let rc := Saga.compensate { sg with steps := r.steps } (r.ctx.markFailed e)
    { steps := rc.steps, ctx := rc.ctx, trace := r.trace ++ rc.trace }

/-- Lookup in an association list with JavaScript Map semantics (first and
only binding of the key). -/
def mapGet {α : Type} : List (String × α) → String → Option α
  | [], _ => none
  | (k, v) :: t, key => if k = key then some v else mapGet t key

/-- Insert-or-replace in an association list with JavaScript Map semantics:
an existing binding is overwritten in place, a new key is appended. -/
def mapSet {α : Type} : List (String × α) → String → α → List (String × α)
  | [], key, v => [(key, v)]
  | (k, w) :: t, key, v =>
    if k = key then (k, v) :: t else (k, w) :: mapSet t key v

/-- One entry of the execution history (SagaOrchestrator.recordExecution):
saga name, final status, duration, number of executed steps, error message
(sagaId and timestamp omitted as nondeterministic). -/
structure ExecRecord where
  sagaName : String
  status : SagaStatus
  duration : Nat
  executedSteps : Nat
  error : Option String
deriving DecidableEq, Repr

/-- The record built by SagaOrchestrator.recordExecution from a context. -/
def mkRecord (sagaName : String) (ctx : SagaContext) (duration : Nat) :
    ExecRecord :=
  { sagaName := sagaName
    status := ctx.status
    duration := duration
    executedSteps := ctx.executedSteps.length
    error := ctx.error }

/-- SagaOrchestrator (SagaOrchestrator.js constructor): registry, history,
maxHistorySize. -/
structure SagaOrchestrator where
  sagas : List (String × Saga)
  executionHistory : List ExecRecord
  maxHistorySize : Nat

/-- SagaOrchestrator constructor: empty registry and history, capacity 100. -/
def SagaOrchestrator.new : SagaOrchestrator :=
  { sagas := [], executionHistory := [], maxHistorySize := 100 }

/-- SagaOrchestrator.registerSaga: upsert into the registry. -/
def SagaOrchestrator.registerSaga (o : SagaOrchestrator) (name : String)
    (sg : Saga) : SagaOrchestrator :=
  { o with sagas := mapSet o.sagas name sg }

/-- SagaOrchestrator.recordExecution (SagaOrchestrator.js lines 61-78): push
the record, then shift the oldest entry off the front when the length exceeds
maxHistorySize. -/
def SagaOrchestrator.recordExecution (o : SagaOrchestrator) (sagaName : String)
    (ctx : SagaContext) (duration : Nat) : SagaOrchestrator :=
  let h := o.executionHistory ++ [mkRecord sagaName ctx duration]
  { o with executionHistory := if h.length > o.maxHistorySize then h.tail else h }

/-- JavaScript Array.prototype.slice with a single (possibly negative) start
index: a negative start counts from the end, clamped at 0; a nonnegative start
is clamped at the length. -/
def jsSliceFrom {α : Type} (l : List α) (start : Int) : List α :=
  let len : Int := l.length
  let s := if start < 0 then max (len + start) 0 else min start len
  l.drop s.toNat

/-- SagaOrchestrator.getExecutionHistory (SagaOrchestrator.js lines 85-87):
this.executionHistory.slice(-limit). The negation of the Nat limit is taken
in Int, exactly as JavaScript negates the number (so limit 0 gives -0 = 0). -/
def SagaOrchestrator.getExecutionHistory (o : SagaOrchestrator)
    (limit : Nat) : List ExecRecord :=
  jsSliceFrom o.executionHistory (-(limit : Int))

/-- Statistics object of SagaOrchestrator.getStatistics. -/
structure Statistics where
  totalExecutions : Nat
  registeredSagas : Nat
  byStatus : List (SagaStatus × Nat)
  bySaga : List (String × Nat)
  averageDuration : Nat

/-- Increment the counter of a key in an association list, appending a fresh
binding with count 1 when the key is absent (the JavaScript pattern
obj[k] = (obj[k] || 0) + 1 on a plain object, insertion order preserved). -/
def bumpCount {α : Type} [DecidableEq α] : List (α × Nat) → α → List (α × Nat)
  | [], k => [(k, 1)]
  | (k, n) :: t, key =>
    if k = key then (k, n + 1) :: t else (k, n) :: bumpCount t key

/-- SagaOrchestrator.getStatistics (SagaOrchestrator.js lines 93-120): counts
by status and by saga over the retained history, total, and the rounded
average duration (Math.round(total / length), rendered as round-half-up
integer division, 0 for an empty history). -/
def SagaOrchestrator.getStatistics (o : SagaOrchestrator) : Statistics :=
  let byStatus := o.executionHistory.foldl (fun acc r => bumpCount acc r.status) []
  let bySaga := o.executionHistory.foldl (fun acc r => bumpCount acc r.sagaName) []
  let totalDuration := (o.executionHistory.map (fun r => r.duration)).sum
  { totalExecutions := o.executionHistory.length
    registeredSagas := o.sagas.length
    byStatus := byStatus
    bySaga := bySaga
    averageDuration :=
      if o.executionHistory.length = 0 then 0
      else (2 * totalDuration + o.executionHistory.length) /
        (2 * o.executionHistory.length) }

/-- SagaOrchestrator.executeSaga (SagaOrchestrator.js lines 28-53): throw
"Saga not found" when the name is unregistered (before any context or history
entry exists); otherwise run the saga (whose step objects, held by reference
in the registry, are updated in place), record the execution and return the
context. The duration argument stands for the Date.now difference measured by
the source. -/
def SagaOrchestrator.executeSaga (o : SagaOrchestrator) (sagaName : String)
    (initialData : List (String × String)) (duration : Nat) :
    Except String (SagaOrchestrator × SagaContext) :=
  match mapGet o.sagas sagaName with
  | none => Except.error ("Saga not found: " ++ sagaName)
  | some sg =>
    let r := sg.execute initialData
    let o1 := { o with sagas := mapSet o.sagas sagaName { sg with steps := r.steps } }
    Except.ok (o1.recordExecution sagaName r.ctx duration, r.ctx)

/-- Transitions allowed by the state machine of spec section 4.3:
PENDING to IN_PROGRESS to COMPLETED, or IN_PROGRESS to FAILED to COMPENSATING
to COMPENSATED; COMPLETED and COMPENSATED are terminal. -/
def SagaStatus.allowedNext : SagaStatus → SagaStatus → Bool
  | SagaStatus.PENDING, SagaStatus.IN_PROGRESS => true
  | SagaStatus.IN_PROGRESS, SagaStatus.COMPLETED => true
  | SagaStatus.IN_PROGRESS, SagaStatus.FAILED => true
  | SagaStatus.FAILED, SagaStatus.COMPENSATING => true
  | SagaStatus.COMPENSATING, SagaStatus.COMPENSATED => true
  | _, _ => false

/-- A status history is monotone along the state machine when every adjacent
pair is an allowed transition. -/
def followsStateMachine : List SagaStatus → Bool
  | [] => true
  | [_] => true
  | a :: b :: t => a.allowedNext b && followsStateMachine (b :: t)

/-- The event emitted when the rollback walk visits an executed step: its
compensation function is invoked when present, otherwise the visit is logged
as a skip. -/
def compVisitEvent (s : SagaStep) : Event :=
  if s.compensation.isSome then Event.comp s.name else Event.compSkip s.name

/-- Fold recordExecution over a list of (sagaName, context, duration)
inputs, in order. -/
def recordAll (o : SagaOrchestrator)
    (rs : List (String × SagaContext × Nat)) : SagaOrchestrator :=
  rs.foldl (fun acc r => acc.recordExecution r.1 r.2.1 r.2.2) o

/-! Concrete inputs used by the witness and counterexample theorems. -/

/-- Concrete step whose forward action succeeds and that has a compensation. -/
def stepA : SagaStep :=
  SagaStep.new ("A") (fun _ => Except.ok ([(("a"), ("1"))], ("ra")))
    (some (fun _ => Except.ok []))

/-- Concrete step whose forward action succeeds and that has a compensation. -/
def stepB : SagaStep :=
  SagaStep.new ("B") (fun _ => Except.ok ([(("b"), ("2"))], ("rb")))
    (some (fun _ => Except.ok []))

/-- Concrete step whose forward action always fails. -/
def stepFail : SagaStep :=
  SagaStep.new ("F") (fun _ => Except.error ("boom")) none

/-- Concrete step that never runs because an earlier step fails. -/
def stepD : SagaStep :=
  SagaStep.new ("D") (fun _ => Except.ok ([], ("rd"))) none

/-- Concrete already-executed step whose compensation fails. -/
def stepCompFails : SagaStep :=
  { name := ("C")
    action := fun _ => Except.ok ([], ("rc"))
    compensation := some (fun _ => Except.error ("comp-boom"))
    executed := true
    compensated := false
    result := none
    error := none }

/-- Concrete already-executed step whose compensation succeeds. -/
def stepCompOk : SagaStep :=
  { name := ("G")
    action := fun _ => Except.ok ([], ("rg"))
    compensation := some (fun _ => Except.ok [(("undone"), ("1"))])
    executed := true
    compensated := false
    result := none
    error := none }

/-- Concrete saga used by the orchestrator witnesses. -/
def sagaW : Saga :=
  { name := ("pay"), steps := [stepA] }

/-- Concrete orchestrator with one registered saga. -/
def orchW : SagaOrchestrator :=
  SagaOrchestrator.new.registerSaga ("pay") sagaW

/-! Helper lemmas about the forward pass. -/

/-- Unfolding SagaStep.execute when the action succeeds. -/
lemma stepExecute_of_action_ok (s : SagaStep) (ctx : SagaContext)
    (d : List (String × String)) (r : String)
    (h : s.action ctx = Except.ok (d, r)) :
    SagaStep.execute s ctx =
      { step := { s with result := some r, executed := true }
        ctx := ({ ctx with data := d }).markStepExecuted s.name r
        trace := [Event.act s.name]
        outcome := Except.ok r } := by
  simp [SagaStep.execute, h]

/-- Unfolding SagaStep.execute when the action fails. -/
lemma stepExecute_of_action_error (s : SagaStep) (ctx : SagaContext)
    (e : String) (h : s.action ctx = Except.error e) :
    SagaStep.execute s ctx =
      { step := { s with error := some e }
        ctx := ctx
        trace := [Event.act s.name]
        outcome := Except.error e } := by
  simp [SagaStep.execute, h]

/-- SagaStep.execute never touches the status, its ghost history, or the
captured error of the context. -/
lemma stepExecute_preserves (s : SagaStep) (ctx : SagaContext) :
    (SagaStep.execute s ctx).ctx.status = ctx.status ∧
    (SagaStep.execute s ctx).ctx.statusHistory = ctx.statusHistory ∧
    (SagaStep.execute s ctx).ctx.error = ctx.error := by
  cases h : s.action ctx with
  | ok p => simp [SagaStep.execute, h, SagaContext.markStepExecuted]
  | error e => simp [SagaStep.execute, h]

/-- The forward pass never touches the status, its ghost history, or the
captured error of the context. -/
lemma execLoop_preserves (l : List SagaStep) (ctx : SagaContext) :
    (execLoop l ctx).ctx.status = ctx.status ∧
    (execLoop l ctx).ctx.statusHistory = ctx.statusHistory ∧
    (execLoop l ctx).ctx.error = ctx.error := by
  induction l generalizing ctx with
  | nil => simp [execLoop]
  | cons s rest ih =>
    cases h : (SagaStep.execute s ctx).outcome with
    | error e =>
      simp only [execLoop, h]
      exact stepExecute_preserves s ctx
    | ok v =>
      simp only [execLoop, h]
      obtain ⟨h1, h2, h3⟩ := stepExecute_preserves s ctx
      obtain ⟨g1, g2, g3⟩ := ih (SagaStep.execute s ctx).ctx
      exact ⟨g1.trans h1, g2.trans h2, g3.trans h3⟩

/-- Unfolding execLoop when the first step fails. -/
lemma execLoop_cons_fail (s : SagaStep) (rest : List SagaStep)
    (ctx : SagaContext) (e : String) (h : s.action ctx = Except.error e) :
    execLoop (s :: rest) ctx =
      { steps := { s with error := some e } :: rest
        ctx := ctx
        trace := [Event.act s.name]
        outcome := Except.error e } := by
  simp [execLoop, stepExecute_of_action_error s ctx e h]

/-- Unfolding execLoop on an append when the first segment succeeds: the
second segment continues from the context the first one produced. -/
lemma execLoop_append (l1 l2 : List SagaStep) (ctx : SagaContext)
    (h : (execLoop l1 ctx).outcome = Except.ok ()) :
    execLoop (l1 ++ l2) ctx =
      { steps := (execLoop l1 ctx).steps ++ (execLoop l2 (execLoop l1 ctx).ctx).steps
        ctx := (execLoop l2 (execLoop l1 ctx).ctx).ctx
        trace := (execLoop l1 ctx).trace ++ (execLoop l2 (execLoop l1 ctx).ctx).trace
        outcome := (execLoop l2 (execLoop l1 ctx).ctx).outcome } := by
  induction l1 generalizing ctx with
  | nil => simp [execLoop]
  | cons s rest ih =>
    cases hs : (SagaStep.execute s ctx).outcome with
    | error e => simp [execLoop, hs] at h
    | ok v =>
      have h' : (execLoop rest (SagaStep.execute s ctx).ctx).outcome =
          Except.ok () := by
        simpa [execLoop, hs] using h
      simp [execLoop, hs, ih _ h', List.append_assoc]

/-- On a successful forward pass: the trace is the forward actions in order,
the log grows by exactly one entry per step, and every returned step keeps
its name and compensation and has its executed flag set. -/
lemma execLoop_ok_spec (l : List SagaStep) (ctx : SagaContext)
    (h : (execLoop l ctx).outcome = Except.ok ()) :
    (execLoop l ctx).trace = l.map (fun s => Event.act s.name) ∧
    (execLoop l ctx).ctx.executedSteps.length =
      ctx.executedSteps.length + l.length ∧
    ((execLoop l ctx).steps.map
        (fun s => (s.name, s.compensation.isSome, s.executed)) =
      l.map (fun s => (s.name, s.compensation.isSome, true))) := by
  induction l generalizing ctx with
  | nil => simp [execLoop]
  | cons s rest ih =>
    cases hs : s.action ctx with
    | error e => simp [execLoop_cons_fail s rest ctx e hs] at h
    | ok p =>
      obtain ⟨d, r⟩ := p
      have h' : (execLoop rest (SagaStep.execute s ctx).ctx).outcome =
          Except.ok () := by
        simpa [execLoop, stepExecute_of_action_ok s ctx d r hs] using h
      obtain ⟨t1, t2, t3⟩ := ih _ h'
      simp only [SagaStep.execute, hs] at t1 t2 t3
      refine ⟨?_, ?_, ?_⟩
      · simp only [execLoop, SagaStep.execute, hs]
        simp [t1]
      · simp only [execLoop, SagaStep.execute, hs, List.length_cons]
        simp only [SagaContext.markStepExecuted, List.length_append,
          List.length_cons, List.length_nil] at t2 ⊢
        omega
      · simp only [execLoop, SagaStep.execute, hs]
        simp [t3]

/-! Helper lemmas about the rollback pass. -/

/-- Visiting an executed step emits exactly its visit event, whatever the
compensation outcome is. -/
lemma stepCompensate_trace_of_executed (s : SagaStep) (ctx : SagaContext)
    (h : s.executed = true) :
    (SagaStep.compensate s ctx).trace = [compVisitEvent s] := by
  cases hc : s.compensation with
  | none => simp [SagaStep.compensate, h, hc, compVisitEvent]
  | some f =>
    cases hf : f ctx with
    | ok d => simp [SagaStep.compensate, h, hc, hf, compVisitEvent]
    | error e => simp [SagaStep.compensate, h, hc, hf, compVisitEvent]

/-- SagaStep.compensate never touches the status, its ghost history, or the
captured error of the context. -/
lemma stepCompensate_preserves (s : SagaStep) (ctx : SagaContext) :
    (SagaStep.compensate s ctx).ctx.status = ctx.status ∧
    (SagaStep.compensate s ctx).ctx.statusHistory = ctx.statusHistory ∧
    (SagaStep.compensate s ctx).ctx.error = ctx.error := by
  by_cases h : s.executed = false
  · simp [SagaStep.compensate, h]
  · cases hc : s.compensation with
    | none => simp [SagaStep.compensate, h, hc]
    | some f =>
      cases hf : f ctx with
      | ok d => simp [SagaStep.compensate, h, hc, hf]
      | error e => simp [SagaStep.compensate, h, hc, hf]

/-- The rollback walk emits exactly the visit events of the executed steps,
in reverse list order, whatever the compensation outcomes are. -/
lemma compensateRun_trace (l : List SagaStep) (ctx : SagaContext) :
    (compensateRun l ctx).trace =
      ((l.filter (fun s => s.executed)).reverse).map compVisitEvent := by
  induction l generalizing ctx with
  | nil => simp [compensateRun]
  | cons s rest ih =>
    cases h : s.executed with
    | true =>
      simp only [compensateRun, SagaStep.isExecuted, h, if_true]
      rw [stepCompensate_trace_of_executed s _ h, ih]
      simp [List.filter_cons, h]
    | false =>
      simp only [compensateRun, SagaStep.isExecuted, h]
      rw [ih]
      simp [List.filter_cons, h]

/-- The rollback walk never touches the status, its ghost history, or the
captured error of the context. -/
lemma compensateRun_preserves (l : List SagaStep) (ctx : SagaContext) :
    (compensateRun l ctx).ctx.status = ctx.status ∧
    (compensateRun l ctx).ctx.statusHistory = ctx.statusHistory ∧
    (compensateRun l ctx).ctx.error = ctx.error := by
  induction l generalizing ctx with
  | nil => simp [compensateRun]
  | cons s rest ih =>
    cases h : s.executed with
    | true =>
      simp only [compensateRun, SagaStep.isExecuted, h, if_true]
      obtain ⟨g1, g2, g3⟩ := ih ctx
      obtain ⟨p1, p2, p3⟩ := stepCompensate_preserves s (compensateRun rest ctx).ctx
      exact ⟨p1.trans g1, p2.trans g2, p3.trans g3⟩
    | false =>
      simp only [compensateRun, SagaStep.isExecuted, h]
      exact ih ctx

/-- Transport along the shape equality produced by a successful forward pass:
all returned steps carry a set executed flag (so the rollback filter keeps all
of them) and their visit events agree with those of the original steps. -/
lemma shape_filter_and_visits {l steps : List SagaStep}
    (h : steps.map (fun s => (s.name, s.compensation.isSome, s.executed)) =
      l.map (fun s => (s.name, s.compensation.isSome, true))) :
    steps.filter (fun s => s.executed) = steps ∧
    steps.map compVisitEvent = l.map compVisitEvent := by
  induction steps generalizing l with
  | nil =>
    cases l with
    | nil => simp
    | cons b bs => simp at h
  | cons a as ih =>
    cases l with
    | nil => simp at h
    | cons b bs =>
      simp only [List.map_cons, List.cons.injEq, Prod.mk.injEq] at h
      obtain ⟨⟨hn, hc, he⟩, h2⟩ := h
      obtain ⟨f1, f2⟩ := ih h2
      constructor
      · simp [List.filter_cons, he, f1]
      · simp [compVisitEvent, hn, hc, f2]

/-! Claim theorems. -/

/-- C2: for every saga with N steps (including N = 0) in which every forward
action succeeds (the forward pass returns ok), Saga.execute yields a context
with final status COMPLETED and an executed-step log of length N, and the run
trace consists of the forward actions only, so no compensation action is ever
invoked. -/
theorem saga_all_success_completes (nm : String) (steps : List SagaStep)
    (init : List (String × String))
    (h : (execLoop steps ((SagaContext.new init).markStarted)).outcome =
      Except.ok ()) :
    (Saga.execute { name := nm, steps := steps } init).ctx.status =
      SagaStatus.COMPLETED ∧
    (Saga.execute { name := nm, steps := steps } init).ctx.executedSteps.length =
      steps.length ∧
    (Saga.execute { name := nm, steps := steps } init).trace =
      steps.map (fun s => Event.act s.name) := by
  obtain ⟨t1, t2, t3⟩ := execLoop_ok_spec steps ((SagaContext.new init).markStarted) h
  simp only [Saga.execute]
  rw [h]
  refine ⟨?_, ?_, ?_⟩
  · simp [SagaContext.markCompleted, SagaContext.setStatus]
  · simp only [SagaContext.markCompleted, SagaContext.setStatus]
    simpa [SagaContext.new, SagaContext.markStarted, SagaContext.setStatus]
      using t2
  · exact t1

/-- Witness for C2 at a two-step saga where both actions succeed, and at the
zero-step saga. -/
theorem saga_all_success_completes_witness :
    ((Saga.execute { name := ("W"), steps := [stepA, stepB] } []).ctx.status =
      SagaStatus.COMPLETED ∧
     (Saga.execute { name := ("W"), steps := [stepA, stepB] } []).ctx.executedSteps.length = 2 ∧
     (Saga.execute { name := ("W"), steps := [stepA, stepB] } []).trace =
       [Event.act ("A"), Event.act ("B")]) ∧
    ((Saga.execute { name := ("W0"), steps := [] } []).ctx.status =
      SagaStatus.COMPLETED ∧
     (Saga.execute { name := ("W0"), steps := [] } []).ctx.executedSteps.length = 0 ∧
     (Saga.execute { name := ("W0"), steps := [] } []).trace = []) :=
  ⟨saga_all_success_completes ("W") [stepA, stepB] [] rfl,
   saga_all_success_completes ("W0") [] [] rfl⟩

/-- C3: the rollback pass is best-effort: whatever each compensation outcome
is (in particular when some compensations throw), every executed step is
still visited in reverse order, and the final status is always COMPENSATED.
The theorem quantifies over all sagas and contexts with no assumption on the
compensation functions, so a throwing compensation cannot change the visit
trace or the final status. -/
theorem saga_compensate_best_effort (sg : Saga) (ctx : SagaContext) :
    (sg.compensate ctx).trace =
      ((sg.steps.filter (fun s => s.executed)).reverse).map compVisitEvent ∧
    (sg.compensate ctx).ctx.status = SagaStatus.COMPENSATED := by
  constructor
  · simp only [Saga.compensate]
    exact compensateRun_trace sg.steps ctx.markCompensating
  · simp [Saga.compensate, SagaContext.markCompensated, SagaContext.setStatus]

/-- C1: when the forward pass succeeds on the prefix pre and the next step sf
fails (and sf and the remaining steps post are fresh), the full run trace is:
the forward actions of pre in order, then the failing action of sf, then the
rollback visits of exactly the steps of pre in reverse order. Hence the steps
of post are never executed, sf is never compensated, and the compensation
order is the reversal of the executed steps. -/
theorem saga_first_failure_rollback (nm : String) (pre post : List SagaStep)
    (sf : SagaStep) (init : List (String × String)) (e : String)
    (hsf : sf.executed = false)
    (hpost : ∀ s ∈ post, s.executed = false)
    (hpre : (execLoop pre ((SagaContext.new init).markStarted)).outcome =
      Except.ok ())
    (hfail : sf.action (execLoop pre ((SagaContext.new init).markStarted)).ctx =
      Except.error e) :
    (Saga.execute { name := nm, steps := pre ++ sf :: post } init).trace =
      pre.map (fun s => Event.act s.name) ++ [Event.act sf.name] ++
      (pre.reverse).map compVisitEvent := by
  obtain ⟨t1, t2, t3⟩ :=
    execLoop_ok_spec pre ((SagaContext.new init).markStarted) hpre
  obtain ⟨hfil, hmap⟩ := shape_filter_and_visits t3
  have hpostnil : post.filter (fun s => s.executed) = [] := by
    rw [List.filter_eq_nil_iff]
    intro a ha
    simp [hpost a ha]
  simp only [Saga.execute]
  rw [execLoop_append pre (sf :: post) _ hpre]
  rw [execLoop_cons_fail sf post _ e hfail]
  simp only [Saga.compensate]
  rw [compensateRun_trace]
  simp only [List.filter_append, List.filter_cons, hfil, hsf, hpostnil]
  simp only [Bool.false_eq_true, if_false, List.append_nil]
  rw [List.map_reverse, hmap, ← List.map_reverse]
  simp [t1, List.append_assoc]

/-- Witness for C1 at the saga [A, B, F, D] where A and B succeed, F fails
and D is never reached. -/
theorem saga_first_failure_rollback_witness :
    (Saga.execute { name := ("W1"), steps := [stepA, stepB] ++ stepFail :: [stepD] } []).trace =
      [stepA, stepB].map (fun s => Event.act s.name) ++ [Event.act stepFail.name] ++
      ([stepA, stepB].reverse).map compVisitEvent :=
  saga_first_failure_rollback ("W1") [stepA, stepB] [stepD] stepFail [] ("boom")
    rfl (by intro s hs; fin_cases hs; rfl) rfl rfl

/-- C4: when the forward action of a fresh step fails, SagaStep.execute
stores the error on the step, leaves the executed flag false, leaves the
context untouched (in particular appends no execution-log entry), and
re-signals the failure; moreover compensating the resulting step afterwards
is a no-op that invokes nothing, so the executed flag alone decides whether
the step is compensated. -/
theorem step_execute_failure_semantics (s : SagaStep) (ctx : SagaContext)
    (e : String) (hex : s.executed = false)
    (h : s.action ctx = Except.error e) :
    (SagaStep.execute s ctx).step.error = some e ∧
    (SagaStep.execute s ctx).step.executed = false ∧
    (SagaStep.execute s ctx).ctx = ctx ∧
    (SagaStep.execute s ctx).outcome = Except.error e ∧
    ∀ c : SagaContext, SagaStep.compensate (SagaStep.execute s ctx).step c =
      { step := (SagaStep.execute s ctx).step, ctx := c, trace := [],
        outcome := Except.ok () } := by
  rw [stepExecute_of_action_error s ctx e h]
  refine ⟨rfl, hex, rfl, rfl, ?_⟩
  intro c
  simp [SagaStep.compensate, hex]

/-- Witness for C4 at a fresh step whose action fails with boom. -/
theorem step_execute_failure_semantics_witness :
    (SagaStep.execute stepFail (SagaContext.new [])).step.error = some ("boom") ∧
    (SagaStep.execute stepFail (SagaContext.new [])).step.executed = false ∧
    (SagaStep.execute stepFail (SagaContext.new [])).ctx = SagaContext.new [] ∧
    (SagaStep.execute stepFail (SagaContext.new [])).outcome = Except.error ("boom") ∧
    ∀ c : SagaContext,
      SagaStep.compensate (SagaStep.execute stepFail (SagaContext.new [])).step c =
        { step := (SagaStep.execute stepFail (SagaContext.new [])).step, ctx := c,
          trace := [], outcome := Except.ok () } :=
  step_execute_failure_semantics stepFail (SagaContext.new []) ("boom") rfl rfl

/-- C5 counterexample: at a concrete executed step whose compensation throws
comp-boom, SagaStep.compensate re-signals the failure but the captured-error
attribute of the step is still none afterwards, so the error is not captured
on the step as the claim states. -/
theorem step_compensate_error_not_captured :
    (SagaStep.compensate stepCompFails (SagaContext.new [])).outcome =
      Except.error ("comp-boom") ∧
    (SagaStep.compensate stepCompFails (SagaContext.new [])).step.error = none :=
  ⟨rfl, rfl⟩

/-- C5 amended: when the compensation action of an executed step fails,
SagaStep.compensate returns the step completely unchanged (in particular the
captured-error attribute and the compensated flag keep their old values) and
re-signals the failure to the caller; on success it sets compensated to true
and installs the new data mapping. -/
theorem step_compensate_semantics (s : SagaStep) (ctx : SagaContext)
    (f : Compensation) (hex : s.executed = true)
    (hc : s.compensation = some f) :
    (∀ e, f ctx = Except.error e → SagaStep.compensate s ctx =
      { step := s, ctx := ctx, trace := [Event.comp s.name],
        outcome := Except.error e }) ∧
    (∀ d, f ctx = Except.ok d → SagaStep.compensate s ctx =
      { step := { s with compensated := true }, ctx := { ctx with data := d },
        trace := [Event.comp s.name], outcome := Except.ok () }) := by
  constructor
  · intro e hf
    simp [SagaStep.compensate, hex, hc, hf]
  · intro d hf
    simp [SagaStep.compensate, hex, hc, hf]

/-- Witness for the amended C5 at a failing and at a succeeding concrete
compensation. -/
theorem step_compensate_semantics_witness :
    SagaStep.compensate stepCompFails (SagaContext.new []) =
      { step := stepCompFails, ctx := SagaContext.new [],
        trace := [Event.comp stepCompFails.name],
        outcome := Except.error ("comp-boom") } ∧
    SagaStep.compensate stepCompOk (SagaContext.new []) =
      { step := { stepCompOk with compensated := true }
        ctx := { SagaContext.new [] with data := [(("undone"), ("1"))] }
        trace := [Event.comp stepCompOk.name], outcome := Except.ok () } :=
  ⟨(step_compensate_semantics stepCompFails (SagaContext.new []) _ rfl rfl).1 _ rfl,
   (step_compensate_semantics stepCompOk (SagaContext.new []) _ rfl rfl).2 _ rfl⟩

/-- C6: executeSaga throws only for an unregistered name (and then no
context is created and no history entry is recorded: the error return carries
no orchestrator state); for every registered name the call always returns ok,
handing back the context of the run as a normal value (with the history entry
recorded), even when the run failed and was compensated. -/
theorem executeSaga_error_policy (o : SagaOrchestrator) (nm : String)
    (init : List (String × String)) (dur : Nat) :
    (mapGet o.sagas nm = none →
      SagaOrchestrator.executeSaga o nm init dur =
        Except.error ("Saga not found: " ++ nm)) ∧
    (∀ sg, mapGet o.sagas nm = some sg →
      SagaOrchestrator.executeSaga o nm init dur =
        Except.ok
          (SagaOrchestrator.recordExecution
            { o with sagas := mapSet o.sagas nm { sg with steps := (sg.execute init).steps } }
            nm ((sg.execute init).ctx) dur,
           (sg.execute init).ctx)) := by
  constructor
  · intro h
    simp [SagaOrchestrator.executeSaga, h]
  · intro sg h
    simp [SagaOrchestrator.executeSaga, h]

/-- Witness for C6 at an orchestrator that has pay registered: an unknown
name throws Saga not found, the registered name returns ok. -/
theorem executeSaga_error_policy_witness :
    SagaOrchestrator.executeSaga orchW ("nope") [] 5 =
      Except.error ("Saga not found: " ++ ("nope")) ∧
    SagaOrchestrator.executeSaga orchW ("pay") [] 5 =
      Except.ok
        (SagaOrchestrator.recordExecution
          { orchW with sagas := mapSet orchW.sagas ("pay") { sagaW with steps := (sagaW.execute []).steps } }
          ("pay") ((sagaW.execute []).ctx) 5,
         (sagaW.execute []).ctx) :=
  ⟨(executeSaga_error_policy orchW ("nope") [] 5).1 rfl,
   (executeSaga_error_policy orchW ("pay") [] 5).2 sagaW rfl⟩

/-- C7 counterexample: setStatus is unguarded, so a sequence of Context
operations can leave the terminal COMPLETED status and revisit PENDING; the
resulting status sequence PENDING, COMPLETED, PENDING violates the state
machine, refuting the claim for arbitrary operation sequences. -/
theorem context_setStatus_violates_state_machine :
    ((SagaContext.new []).markCompleted.setStatus SagaStatus.PENDING).statusHistory =
      [SagaStatus.PENDING, SagaStatus.COMPLETED, SagaStatus.PENDING] ∧
    followsStateMachine
      (((SagaContext.new []).markCompleted.setStatus SagaStatus.PENDING).statusHistory) =
      false :=
  ⟨rfl, rfl⟩

/-- C7 amended: for the operation sequences the saga sequencer actually
performs, the claim holds: every context produced by Saga.execute has taken
exactly the status path PENDING, IN_PROGRESS, COMPLETED (success) or PENDING,
IN_PROGRESS, FAILED, COMPENSATING, COMPENSATED (failure), so the transitions
are monotonic along the state machine with COMPLETED and COMPENSATED
terminal. -/
theorem saga_run_status_path (sg : Saga) (init : List (String × String)) :
    (sg.execute init).ctx.statusHistory =
      [SagaStatus.PENDING, SagaStatus.IN_PROGRESS, SagaStatus.COMPLETED] ∨
    (sg.execute init).ctx.statusHistory =
      [SagaStatus.PENDING, SagaStatus.IN_PROGRESS, SagaStatus.FAILED,
       SagaStatus.COMPENSATING, SagaStatus.COMPENSATED] := by
  cases h : (execLoop sg.steps ((SagaContext.new init).markStarted)).outcome with
  | ok v =>
    left
    simp only [Saga.execute]
    rw [h]
    simp [SagaContext.markCompleted, SagaContext.setStatus, execLoop_preserves,
      SagaContext.markStarted, SagaContext.new]
  | error e =>
    right
    simp only [Saga.execute]
    rw [h]
    simp only [Saga.compensate]
    simp [SagaContext.markCompensated, SagaContext.setStatus,
      compensateRun_preserves, SagaContext.markCompensating,
      SagaContext.markFailed, SagaContext.setError, execLoop_preserves,
      SagaContext.markStarted, SagaContext.new]

/-! Helper lemmas about the orchestrator history and statistics. -/

/-- Folding recordExecution keeps exactly the most recent maxHistorySize
records: the history after the fold is the concatenation of old history and
new records with everything beyond the capacity dropped from the front. -/
lemma recordAll_history (rs : List (String × SagaContext × Nat))
    (o : SagaOrchestrator)
    (hinv : o.executionHistory.length ≤ o.maxHistorySize) :
    (recordAll o rs).executionHistory =
      (o.executionHistory ++ rs.map (fun r => mkRecord r.1 r.2.1 r.2.2)).drop
        ((o.executionHistory.length + rs.length) - o.maxHistorySize) ∧
    (recordAll o rs).maxHistorySize = o.maxHistorySize := by
  induction rs generalizing o with
  | nil =>
    have h0 : o.executionHistory.length - o.maxHistorySize = 0 :=
      Nat.sub_eq_zero_of_le hinv
    constructor
    · simp [recordAll, h0]
    · simp [recordAll]
  | cons r rs ih =>
    have hrec : recordAll o (r :: rs) =
        recordAll (SagaOrchestrator.recordExecution o r.1 r.2.1 r.2.2) rs := by
      simp [recordAll]
    have hmax : (SagaOrchestrator.recordExecution o r.1 r.2.1 r.2.2).maxHistorySize =
        o.maxHistorySize := by
      simp [SagaOrchestrator.recordExecution]
    by_cases hfull :
        (o.executionHistory ++ [mkRecord r.1 r.2.1 r.2.2]).length >
          o.maxHistorySize
    · have hn : o.executionHistory.length = o.maxHistorySize := by
        simp only [List.length_append, List.length_cons, List.length_nil] at hfull
        omega
      have ho' : (SagaOrchestrator.recordExecution o r.1 r.2.1 r.2.2).executionHistory =
          (o.executionHistory ++ [mkRecord r.1 r.2.1 r.2.2]).drop 1 := by
        simp only [SagaOrchestrator.recordExecution]
        rw [if_pos hfull, List.drop_one]
      have hlen' : (SagaOrchestrator.recordExecution o r.1 r.2.1 r.2.2).executionHistory.length =
          o.maxHistorySize := by
        rw [ho', List.length_drop]
        simp only [List.length_append, List.length_cons, List.length_nil]
        omega
      obtain ⟨g1, g2⟩ := ih _ (by rw [hlen', hmax])
      rw [hrec]
      refine ⟨?_, g2.trans hmax⟩
      rw [g1, hlen', hmax, ho']
      simp only [List.map_cons, List.length_cons]
      have e1 : o.maxHistorySize + rs.length - o.maxHistorySize = rs.length := by
        omega
      have e2 : o.executionHistory.length + (rs.length + 1) - o.maxHistorySize =
          rs.length + 1 := by
        omega
      rw [e1, e2]
      rw [← List.drop_append_of_le_length
        (show 1 ≤ (o.executionHistory ++ [mkRecord r.1 r.2.1 r.2.2]).length by simp)]
      rw [List.drop_drop]
      simp [List.append_assoc, Nat.add_comm]
    · have ho' : (SagaOrchestrator.recordExecution o r.1 r.2.1 r.2.2).executionHistory =
          o.executionHistory ++ [mkRecord r.1 r.2.1 r.2.2] := by
        simp only [SagaOrchestrator.recordExecution]
        rw [if_neg hfull]
      have hlen' : (SagaOrchestrator.recordExecution o r.1 r.2.1 r.2.2).executionHistory.length ≤
          o.maxHistorySize := by
        rw [ho']
        simp only [List.length_append, List.length_cons, List.length_nil] at hfull ⊢
        omega
      obtain ⟨g1, g2⟩ := ih _ (by rw [hmax]; exact hlen')
      rw [hrec]
      refine ⟨?_, g2.trans hmax⟩
      rw [g1, ho', hmax]
      simp only [List.map_cons, List.length_cons, List.length_append,
        List.length_nil]
      rw [List.append_assoc]
      have e3 : o.executionHistory.length + 1 + rs.length =
          o.executionHistory.length + (rs.length + 1) := by
        omega
      rw [e3]
      simp

/-- The slice taken by getExecutionHistory is never longer than the stored
history. -/
lemma getExecutionHistory_length_le (o : SagaOrchestrator) (limit : Nat) :
    (o.getExecutionHistory limit).length ≤ o.executionHistory.length := by
  simp only [SagaOrchestrator.getExecutionHistory, jsSliceFrom, List.length_drop]
  omega

/-- Incrementing one counter raises the sum of the counters by one. -/
lemma bumpCount_sum {α : Type} [DecidableEq α] (l : List (α × Nat)) (k : α) :
    ((bumpCount l k).map (fun p => p.2)).sum =
      ((l.map (fun p => p.2)).sum) + 1 := by
  induction l with
  | nil => simp [bumpCount]
  | cons p t ih =>
    obtain ⟨a, n⟩ := p
    by_cases h : a = k
    · simp only [bumpCount, h, if_true, List.map_cons, List.sum_cons]
      omega
    · simp only [bumpCount, h, if_false, List.map_cons, List.sum_cons, ih]
      omega

/-- Folding bumpCount over a list adds the list length to the counter sum. -/
lemma foldl_bump_sum {α : Type} [DecidableEq α] (f : ExecRecord → α)
    (h : List ExecRecord) (acc : List (α × Nat)) :
    (((h.foldl (fun a r => bumpCount a (f r)) acc)).map (fun p => p.2)).sum =
      ((acc.map (fun p => p.2)).sum) + h.length := by
  induction h generalizing acc with
  | nil => simp
  | cons r t ih =>
    simp only [List.foldl_cons, List.length_cons, ih, bumpCount_sum]
    omega

/-- C8: the execution history of a fresh orchestrator (capacity 100) is a
bounded FIFO: after recording more than 100 executions, getExecutionHistory
at limit 100 returns exactly the most recent 100 records in insertion order
(the oldest records are evicted from the front), its length is 100, and for
every orchestrator getExecutionHistory never returns more entries than are
stored. -/
theorem orchestrator_history_bounded (rs : List (String × SagaContext × Nat))
    (h : rs.length > 100) :
    (recordAll SagaOrchestrator.new rs).getExecutionHistory 100 =
      (rs.map (fun r => mkRecord r.1 r.2.1 r.2.2)).drop (rs.length - 100) ∧
    ((recordAll SagaOrchestrator.new rs).getExecutionHistory 100).length = 100 ∧
    ∀ (o : SagaOrchestrator) (limit : Nat),
      (o.getExecutionHistory limit).length ≤ o.executionHistory.length := by
  obtain ⟨g1, g2⟩ := recordAll_history rs SagaOrchestrator.new
    (by simp [SagaOrchestrator.new])
  have hh : SagaOrchestrator.new.executionHistory = [] := rfl
  have hm : SagaOrchestrator.new.maxHistorySize = 100 := rfl
  rw [hh, hm] at g1
  simp only [List.length_nil, Nat.zero_add, List.nil_append] at g1
  have hlen : (recordAll SagaOrchestrator.new rs).executionHistory.length = 100 := by
    rw [g1, List.length_drop, List.length_map]
    omega
  have hget : (recordAll SagaOrchestrator.new rs).getExecutionHistory 100 =
      (recordAll SagaOrchestrator.new rs).executionHistory := by
    simp only [SagaOrchestrator.getExecutionHistory, jsSliceFrom, hlen]
    norm_num
  refine ⟨?_, ?_, getExecutionHistory_length_le⟩
  · rw [hget, g1]
  · rw [hget, hlen]

/-- Witness for C8 at 101 identical recorded executions: the retained
history is the most recent 100 of them. -/
theorem orchestrator_history_bounded_witness :
    (recordAll SagaOrchestrator.new
        (List.replicate 101 (("s"), SagaContext.new [], 0))).getExecutionHistory 100 =
      ((List.replicate 101 (("s"), SagaContext.new [], 0)).map
        (fun r => mkRecord r.1 r.2.1 r.2.2)).drop
          ((List.replicate 101 (("s"), SagaContext.new [], 0)).length - 100) ∧
    ((recordAll SagaOrchestrator.new
        (List.replicate 101 (("s"), SagaContext.new [], 0))).getExecutionHistory 100).length =
      100 ∧
    ∀ (o : SagaOrchestrator) (limit : Nat),
      (o.getExecutionHistory limit).length ≤ o.executionHistory.length :=
  orchestrator_history_bounded (List.replicate 101 (("s"), SagaContext.new [], 0))
    (by simp)

/-- C9: for every orchestrator state, the per-status counts of
getStatistics sum to totalExecutions, which is the length of the retained
execution history. -/
theorem statistics_sum_invariant (o : SagaOrchestrator) :
    (((o.getStatistics).byStatus.map (fun p => p.2)).sum =
      (o.getStatistics).totalExecutions) ∧
    (o.getStatistics).totalExecutions = o.executionHistory.length := by
  constructor
  · simp only [SagaOrchestrator.getStatistics]
    simpa using foldl_bump_sum (fun r => r.status) o.executionHistory []
  · rfl

/-- C10: calling getExecutionHistory with limit 0 returns the entire
retained history, because the source slices from -limit and the negation of
0 is 0, which Array.prototype.slice treats as the start of the array. -/
theorem getExecutionHistory_zero_returns_all (o : SagaOrchestrator) :
    o.getExecutionHistory 0 = o.executionHistory := by
  simp [SagaOrchestrator.getExecutionHistory, jsSliceFrom]

end SagaPattern
